import Mathlib

/-!
# Verification of the Kyiv power-outage notifier (`main.py`)

Shallow embedding of the schedule pipeline of `main.py`: the status-code
interpretation, the half-hour slot encoder and interval merger inside
`build_schedule`, the renderers `format_hours`, `format_slot_time`,
`format_schedule_message` and `format_full_message`, the chunking and
delivery loop of `send_telegram_message`, and the revision-gate
orchestration of `main`.

Modelling conventions: Python dicts become association lists (first binding
wins); the durations are multiples of `0.5`, exact in binary floating point,
so they are embedded as rationals; external effects (clock/timezone, the
network transport, the marker file) enter as explicit parameters.
-/

namespace LightMonitor

/-- Ukrainian weekday names (`DAYS_UA`), keyed by Python `date.weekday()`
(0 = Monday). The wildcard branch is unreachable: weekday indices are 0..6. -/
def DAYS_UA (w : Nat) : String :=
  match w with
  | 0 => "Понеділок"
  | 1 => "Вівторок"
  | 2 => "Середа"
  | 3 => "Четвер"
  | 4 => "П\x27ятниця"
  | 5 => "Субота"
  | 6 => "Неділя"
  | _ => ""

/-- Rendering of the numeric value as `format_hours` prints it after its
`hours == int(hours)` narrowing: integral values print as Python ints; the
only non-integral values the program produces are halves `k + 0.5`, printed
as the integer part followed by `.5`. Other denominators never occur in the
program (the fallback rendering for them is immaterial to every claim). -/
def pyNumStr (q : ℚ) : String :=
  if q.den = 1 then toString q.num
  else if q.den = 2 then toString (q.num.tdiv 2) ++ ".5"
  else toString q.num ++ "/" ++ toString q.den

/-- Source `format_hours`: the Ukrainian three-form numeral agreement for the unit
"година". Python `%` on ints is floor-mod, `Int.fmod`. The test
`hours == int(hours)` in the source holds exactly when the value is an integer
(denominator 1); its `isinstance(hours, float)` branch is then exactly the
non-integral case, which always takes the "2-4" form. -/
def format_hours (hours : ℚ) : String :=
  if hours.den = 1 then
    if hours.num.fmod 10 = 1 ∧ hours.num.fmod 100 ≠ 11 then
      pyNumStr hours ++ " година"
    else if (hours.num.fmod 10 = 2 ∨ hours.num.fmod 10 = 3 ∨
        hours.num.fmod 10 = 4) ∧
        ¬(hours.num.fmod 100 = 12 ∨ hours.num.fmod 100 = 13 ∨
          hours.num.fmod 100 = 14) then
      pyNumStr hours ++ " години"
    else
      pyNumStr hours ++ " годин"
  else
    pyNumStr hours ++ " години"

/-- Two-digit zero padding, as the zero-padded two-digit Python integer
format used by `format_slot_time`, for `n ≥ 0`. -/
def pad2 (n : Nat) : String :=
  if n < 10 then "0" ++ toString n else toString n

/-- Source `format_slot_time`: slot number (0-48) to clock time `HH:MM`, with the
24:00 special case. -/
def format_slot_time (slot : Nat) : String :=
  let total_minutes := slot * 30
  let hours := total_minutes / 60
  let minutes := total_minutes % 60
  if hours = 24 then "24:00"
  else pad2 hours ++ ":" ++ pad2 minutes

/-- The status-code interpretation inside `build_schedule`: one hourly code
to the powered state of the first and second half-hour slots of the hour. The
final catch-all branch is the fail-open default. -/
def statusHalves (status : String) : Bool × Bool :=
  if status = "yes" then (true, true)
  else if status = "no" then (false, false)
  else if status = "first" then (false, true)
  else if status = "second" then (true, false)
  else if status = "maybe" ∨ status = "mfirst" ∨ status = "msecond" then
    (true, true)
  else (true, true)

/-- Feed data of one day: the JSON object from hour labels to status codes,
embedded as an association list. -/
abbrev DayData := List (String × String)

/-- Python `day_data.get(str(hour), "yes")`. -/
def hourStatus (day_data : DayData) (hour : Nat) : String :=
  (List.lookup (toString hour) day_data).getD "yes"

/-- The slot-encoding loop of `build_schedule`: for each hour of the given
list, append the two half-hour booleans for the status of that hour. -/
def encodeFrom (day_data : DayData) : List Nat → List Bool
  | [] => []
  | h :: hs =>
    let st := statusHalves (hourStatus day_data h)
    st.1 :: st.2 :: encodeFrom day_data hs

/-- The 48 half-hour slots of one day (`for hour in range(1, 25)`). -/
def encodeSlots (day_data : DayData) : List Bool :=
  encodeFrom day_data (List.range' 1 24)

/-- A merged period at slot resolution: `[startSlot, endSlot)` with its
powered flag and duration in hours. The source renders the slot bounds with
`format_slot_time` as it appends each period; `renderPeriod` below applies
that rendering, so this structure is the state of the merge loop itself. -/
structure SlotPeriod where
  startSlot : Nat
  endSlot : Nat
  is_on : Bool
  hours : ℚ
deriving DecidableEq, Repr

/-- The merge loop of `build_schedule`: `rest` is the unscanned suffix,
`cur` the status of the open period, `start` its first slot, `i` the index
of the next slot to examine. A status change closes the open period; the
final period closes at the total slot count (`len(slots)`). -/
def mergeAux : List Bool → Bool → Nat → Nat → List SlotPeriod
  | [], cur, start, i =>
    [⟨start, i, cur, ((i - start : ℕ) : ℚ) * (1 / 2)⟩]
  | b :: rest, cur, start, i =>
    if b = cur then mergeAux rest cur start (i + 1)
    else
      ⟨start, i, cur, ((i - start : ℕ) : ℚ) * (1 / 2)⟩ ::
        mergeAux rest b i (i + 1)

/-- The merge phase of `build_schedule`: `if not slots: return []`, then the
scan from index 1 with `current_status = slots[0]` and `start_slot = 0`. -/
def mergeSlots : List Bool → List SlotPeriod
  | [] => []
  | b :: rest => mergeAux rest b 0 1

/-- One rendered period dict `{start, end, is_on, hours}`. The source key
`end` is a Lean keyword and is named `stop` here. -/
structure Period where
  start : String
  stop : String
  is_on : Bool
  hours : ℚ
deriving DecidableEq, Repr

/-- The rendering `build_schedule` applies to a period as it appends it. -/
def renderPeriod (p : SlotPeriod) : Period :=
  ⟨format_slot_time p.startSlot, format_slot_time p.endSlot, p.is_on, p.hours⟩

/-- Source `build_schedule`: encode the day into 48 half-hour slots, then merge
runs of equal slots into rendered periods. -/
def build_schedule (day_data : DayData) : List Period :=
  (mergeSlots (encodeSlots day_data)).map renderPeriod

/-- Python `str.replace(pat, repl)` for a non-empty pattern: replace every
leftmost, non-overlapping occurrence. The fuel starts at the input length
and each step consumes at least one character, so it never runs out. -/
def pyReplaceFuel (pat repl : List Char) : Nat → List Char → List Char
  | _, [] => []
  | 0, s => s
  | fuel + 1, c :: rest =>
    if pat ≠ [] ∧ pat.isPrefixOf (c :: rest) then
      repl ++ pyReplaceFuel pat repl fuel ((c :: rest).drop pat.length)
    else c :: pyReplaceFuel pat repl fuel rest

/-- Python `s.replace(pat, repl)` on strings. -/
def pyReplace (pat repl s : String) : String :=
  String.mk (pyReplaceFuel pat.data repl.data s.data.length s.data)

/-- Source `format_schedule_message`. `datetime` is host-environment state, so the
weekday index (Python `date.weekday()`, 0 = Monday) and the `"%d.%m"` date
rendering enter as parameters. The source accumulates the per-period lines
and the two duration totals in one pass; the totals are the sums below. -/
def format_schedule_message (schedule : List Period) (weekday : Nat)
    (date_str : String) (group : String) (is_today : Bool) : String :=
  let day_name := DAYS_UA weekday
  let day_type := if is_today then "сьогодні" else "завтра"
  let group_num := pyReplace "GPV" "" group
  let header := "🗓 Графік відключень на " ++ day_type ++ ", " ++ date_str ++
    " (" ++ day_name ++ "), група " ++ group_num ++ ":"
  let body := schedule.map (fun period =>
    (if period.is_on then "🔋" else "🪫") ++ period.start ++ " - " ++
      period.stop ++ " (" ++ format_hours period.hours ++ ")")
  let total_on := ((schedule.filter (fun p => p.is_on)).map Period.hours).sum
  let total_off := ((schedule.filter (fun p => !p.is_on)).map Period.hours).sum
  String.intercalate "\n"
    ((header :: body) ++
      ["", "Світло є " ++ format_hours total_on,
       "Світла нема " ++ format_hours total_off])

/-- The feed document: `meta.contentHash` (an absent `meta` or `contentHash`
collapses to the empty-string default of the two chained `get` calls in
`main`) and `fact.data` as an association list from decimal timestamp
strings to per-group day data; an absent or empty `fact.data` is the empty
list. -/
structure FeedDoc where
  contentHash : Option String
  factData : List (String × List (String × DayData))

/-- Python `int(x)` on the timestamp keys of the feed. The feed contract promises
decimal strings; a non-decimal key would raise in the source and is outside
the embedded domain. -/
def keyNat (s : String) : Nat := s.toNat?.getD 0

/-- Stable insertion of `x` into a sorted list: `x` goes in front of the
first element whose key is not smaller, so elements with equal keys keep
their original relative order. -/
def insertKeyed (key : String → Nat) (x : String) :
    List String → List String
  | [] => [x]
  | y :: ys =>
    if key y < key x then y :: insertKeyed key x ys else x :: y :: ys

/-- Stable ascending sort by key. Python `sorted` is specified exactly as
a stable ascending sort by the key function; the textbook stable insertion
sort here realizes that specification. -/
def sortByKey (key : String → Nat) : List String → List String
  | [] => []
  | x :: xs => insertKeyed key x (sortByKey key xs)

/-- Python `sorted(fact_data.keys(), key=lambda x: int(x))`. -/
def sorted_days (factData : List (String × List (String × DayData))) :
    List String :=
  sortByKey keyNat (factData.map Prod.fst)

/-- The configured group order of `format_full_message`. -/
def groups : List String := ["GPV12.1", "GPV18.1"]

/-- Source `format_full_message`. `datetime.fromtimestamp` depends on the host
timezone, so it enters as `tsToDate`, giving the weekday index and the
`"%d.%m"` string of a timestamp. `none` is the `if not fact_data: return None`
branch; the `continue` for an absent or empty (falsy) group entry is the
`filterMap` dropping it, and a group with no day messages is skipped. -/
def format_full_message (tsToDate : Nat → Nat × String) (data : FeedDoc) :
    Option String :=
  let fact_data := data.factData
  if fact_data = [] then none
  else
    let dayKeys := (sorted_days fact_data).take 2
    let all_messages := groups.filterMap (fun group =>
      let group_messages := dayKeys.enum.filterMap (fun idxTs =>
        let day_data :=
          (((List.lookup idxTs.2 fact_data).getD []).lookup group).getD []
        if day_data = [] then none
        else
          let d := tsToDate (keyNat idxTs.2)
          some (format_schedule_message (build_schedule day_data) d.1 d.2
            group (idxTs.1 == 0)))
      if group_messages = [] then none
      else some (String.intercalate "\n---\n" group_messages))
    some (String.intercalate "\n===\n" all_messages)

/-- Source `fetch_data`: every transport or parse failure is caught and becomes
`None`; the transport outcome enters as an `Except`. -/
def fetch_data (net : Except String FeedDoc) : Option FeedDoc :=
  match net with
  | .ok d => some d
  | .error _ => none

/-- One `main` run. `fetched` is the result of `fetch_data` (`none` also covers a
falsy decoded document, `if not data`); `marker0` is the marker file before
the run (`none` = absent, read by `get_cached_hash`); `sendOK` abstracts
the success that `send_telegram_message` reported on the formatted text. The result
is the number of `send_telegram_message` invocations the run performs and
the marker file after the run; `save_hash` runs only on reported success. -/
def mainRun (tsToDate : Nat → Nat × String) (fetched : Option FeedDoc)
    (marker0 : Option String) (sendOK : String → Bool) : Nat × Option String :=
  match fetched with
  | none => (0, marker0)
  | some data =>
    let content_hash := data.contentHash.getD ""
    if marker0 = some content_hash then (0, marker0)
    else
      match format_full_message tsToDate data with
      | none => (0, marker0)
      | some message =>
        if message = "" then (0, marker0)
        else if sendOK message then (1, some content_hash)
        else (1, marker0)

/-- Python `str.split(sep)` for a non-empty separator, on code-point lists:
scan left to right and close the accumulated part at each leftmost,
non-overlapping occurrence of `sep`. -/
def pySplitAcc (sep : List Char) (acc : List Char) :
    List Char → List (List Char)
  | [] => [acc.reverse]
  | c :: rest =>
    if sep ≠ [] ∧ sep.isPrefixOf (c :: rest) then
      acc.reverse :: pySplitAcc sep [] (rest.drop (sep.length - 1))
    else
      pySplitAcc sep (c :: acc) rest
termination_by s => s.length
decreasing_by
  · simp only [List.length_drop, List.length_cons]
    omega
  · simp only [List.length_cons]
    omega

/-- Python `message.split(sep)`. -/
def pySplit (sep s : List Char) : List (List Char) := pySplitAcc sep [] s

/-- The group separator `"\n===\n"` as characters. -/
def sepChars : List Char := ['\n', '=', '=', '=', '\n']

/-- The chunking step of `send_telegram_message`: `max_length = 4000`; a
message within the limit is a single part, otherwise the parts are
`message.split("\n===\n")`. -/
def chunkMessage (message : List Char) : List (List Char) :=
  if message.length ≤ 4000 then [message] else pySplit sepChars message

/-- Behaviour of one `requests.post` / `raise_for_status` round: both
succeed, or `requests.post` itself raises (the local `response` stays
unbound), or `raise_for_status` raises (after `response` was bound). -/
inductive PostResult where
  | ok
  | postRaise (e : String)
  | statusRaise (e : String)
deriving DecidableEq, Repr

/-- The delivery loop of `send_telegram_message`: `bound` tracks whether the
Python local `response` was assigned in an earlier iteration. In the
`except` handler, `hasattr(response, ...)` evaluates the name `response`;
when it is unbound this raises `UnboundLocalError`, which the handler does
not catch, so it escapes the function: that is the `.error` result. -/
def sendLoop (post : Nat → PostResult) :
    List (List Char) → Nat → Bool → Except String Bool
  | [], _, _ => .ok true
  | _ :: rest, k, bound =>
    match post k with
    | .ok => sendLoop post rest (k + 1) true
    | .statusRaise _ => .ok false
    | .postRaise _ =>
      if bound then .ok false else .error "UnboundLocalError"

/-- Source `send_telegram_message`, parameterized by the credential configuration
and the transport behaviour (`post k` is the outcome of the k-th POST). A
missing (or empty, falsy) token or channel id returns `False` before any
network call. -/
def send_telegram_message (botToken channelId : Option String)
    (post : Nat → PostResult) (message : List Char) : Except String Bool :=
  if botToken = none ∨ channelId = none then .ok false
  else sendLoop post (chunkMessage message) 0 false

/-! ## Spec-side definitions and concrete inputs -/

/-- Modelled from the spec (§4.4): the three-form numeral-agreement rule as
the claim states it, selecting the word form only — fractional values always
take the "2-4" form, integral values follow the `mod 10` / `mod 100` rules
on the integer value `n` (Python floor-mod). -/
def specHoursForm (q : ℚ) : String :=
  if q.den = 1 then
    if q.num.fmod 10 = 1 ∧ q.num.fmod 100 ≠ 11 then "година"
    else if (q.num.fmod 10 = 2 ∨ q.num.fmod 10 = 3 ∨ q.num.fmod 10 = 4) ∧
        ¬(q.num.fmod 100 = 12 ∨ q.num.fmod 100 = 13 ∨ q.num.fmod 100 = 14) then
      "години"
    else "годин"
  else "години"

/-- Modelled from the spec: zero-padded `HH:MM` for the time `s*30` minutes
after midnight (hour `s/2`, minutes `30*(s mod 2)`). -/
def specSlotHHMM (s : Nat) : String :=
  pad2 (s / 2) ++ ":" ++ pad2 (s % 2 * 30)

/-- Adjacent merged periods abut (half-open ranges) and alternate their
powered flag. -/
def PeriodRel (p q : SlotPeriod) : Prop :=
  p.endSlot = q.startSlot ∧ p.is_on ≠ q.is_on

/-- The interval-merger invariant of claim C2 for one slot sequence: the
merged periods are nonempty, each covers a nonempty slot range, consecutive
periods abut and alternate (contiguity, no overlap, maximal merge), the
first period starts at slot 0, the last ends at slot 48, and the duration
fields sum to exactly 24 hours. -/
def MergeInvariant (slots : List Bool) : Prop :=
  mergeSlots slots ≠ [] ∧
  (∀ p ∈ mergeSlots slots, p.startSlot < p.endSlot) ∧
  List.Chain' PeriodRel (mergeSlots slots) ∧
  ((mergeSlots slots).map SlotPeriod.startSlot).head? = some 0 ∧
  ((mergeSlots slots).map SlotPeriod.endSlot).getLast? = some 48 ∧
  ((mergeSlots slots).map SlotPeriod.hours).sum = 24

/-- The day data of one group after the two falsy-collapsing lookups of
`format_full_message`: `fact_data[day_ts].get(group)` with `None` and the
empty dict both collapsed to the empty list. -/
def dayGroupData (data : FeedDoc) (day_ts group : String) : DayData :=
  (((List.lookup day_ts data.factData).getD []).lookup group).getD []

/-- The day of claim C5: hour "1" off, hour "2" on, all other hours on. -/
def exDay : DayData := [("1", "no"), ("2", "yes")]

/-- A fixed date conversion for concrete runs: every timestamp falls on a
Sunday rendered "12.10". -/
def fixedDate : Nat → Nat × String := fun _ => (6, "12.10")

/-- The message `format_schedule_message` renders for `exDay` on that date
for group GPV12.1 as today. -/
def exDayMsg : String :=
  "🗓 Графік відключень на сьогодні, 12.10 (Неділя), група 12.1:\n" ++
  "🪫00:00 - 01:00 (1 година)\n🔋01:00 - 24:00 (23 години)\n\n" ++
  "Світло є 23 години\nСвітла нема 1 година"

/-- A feed document whose only day carries `exDay` for group GPV12.1. -/
def exDoc : FeedDoc := ⟨some "h", [("100", [("GPV12.1", exDay)])]⟩

/-- A feed document with a non-empty `fact.data` in which no configured
group has any day data. -/
def cexDoc : FeedDoc := ⟨some "h", [("100", [])]⟩

/-- Split at newline characters (Python `text.split("\n")` for the
single-character separator), used to read individual lines back out of a
rendered message. -/
def splitLines : List Char → List (List Char)
  | [] => [[]]
  | c :: rest =>
    if c = '\n' then [] :: splitLines rest
    else
      match splitLines rest with
      | [] => [[c]]
      | p :: ps => (c :: p) :: ps

/-- The lines of a rendered message. -/
def msgLines (s : String) : List String := (splitLines s.data).map String.mk

/-- Concrete two-group payloads for the chunker witness. -/
def chunkA : List Char := List.replicate 4000 'a'

/-- Second concrete payload for the chunker witness. -/
def chunkB : List Char := List.replicate 10 'b'

/-! ## Theorems -/

/-- C3: `format_hours` obeys the Slavic three-form numeral-agreement rule:
fractional values always get the "2-4" form ("години"); for an integer `n`,
`n mod 10 = 1 ∧ n mod 100 ≠ 11` gives the singular "година",
`n mod 10 ∈ {2,3,4}` outside `n mod 100 ∈ {12,13,14}` gives "години", and
everything else "годин". In particular 1 and 21 are singular, 2,3,4 and
22,23,24 get "години", 5..20 get "годин", and 2.5 gets "години". -/
theorem format_hours_agreement :
    (∀ q : ℚ, format_hours q = pyNumStr q ++ (" " ++ specHoursForm q)) ∧
    format_hours 1 = "1 година" ∧ format_hours 21 = "21 година" ∧
    format_hours 2 = "2 години" ∧ format_hours 3 = "3 години" ∧
    format_hours 4 = "4 години" ∧ format_hours 22 = "22 години" ∧
    format_hours 23 = "23 години" ∧ format_hours 24 = "24 години" ∧
    (∀ n : ℕ, n ≤ 20 → 5 ≤ n →
      format_hours (n : ℚ) = toString (n : ℤ) ++ " годин") ∧
    format_hours (mkRat 5 2) = "2.5 години" := by
  refine ⟨?_, by decide, by decide, by decide, by decide, by decide, by decide,
    by decide, by decide, by decide, by decide⟩
  intro q
  unfold format_hours specHoursForm
  split_ifs <;> rfl

/-- Witness for C3: 13 hours takes the general plural form. -/
theorem format_hours_agreement_witness :
    (13 : ℕ) ≤ 20 ∧ format_hours ((13 : ℕ) : ℚ) = toString ((13 : ℕ) : ℤ) ++ " годин" :=
  ⟨by decide, format_hours_agreement.2.2.2.2.2.2.2.2.2.1 13 (by decide) (by decide)⟩

/-- C4: the status-code table of `build_schedule` — "yes" ↦ (on, on),
"no" ↦ (off, off), "first" ↦ (off, on), "second" ↦ (on, off), the "maybe"
family ↦ (on, on), every other string ↦ (on, on), and a missing hour key
resolves to the "yes" default, hence (on, on). -/
theorem statusHalves_table :
    statusHalves "yes" = (true, true) ∧ statusHalves "no" = (false, false) ∧
    statusHalves "first" = (false, true) ∧
    statusHalves "second" = (true, false) ∧
    statusHalves "maybe" = (true, true) ∧
    statusHalves "mfirst" = (true, true) ∧
    statusHalves "msecond" = (true, true) ∧
    (∀ s : String, s ≠ "yes" → s ≠ "no" → s ≠ "first" → s ≠ "second" →
      statusHalves s = (true, true)) ∧
    (∀ day_data : DayData, ∀ hour : Nat,
      List.lookup (toString hour) day_data = none →
      statusHalves (hourStatus day_data hour) = (true, true)) := by
  refine ⟨rfl, rfl, rfl, rfl, rfl, rfl, rfl, ?_, ?_⟩
  · intro s h1 h2 h3 h4
    unfold statusHalves
    rw [if_neg h1, if_neg h2, if_neg h3, if_neg h4]
    split_ifs <;> rfl
  · intro dd hour h
    unfold hourStatus
    rw [h]
    rfl

/-- Witness for C4: an unrecognized code resolves fail-open to (on, on). -/
theorem statusHalves_table_witness :
    ("tbd" : String) ≠ "yes" ∧ statusHalves "tbd" = (true, true) :=
  ⟨by decide, statusHalves_table.2.2.2.2.2.2.2.1 "tbd" (by decide) (by decide)
    (by decide) (by decide)⟩

/-- C7: for every slot index `s ≤ 48`, `format_slot_time` renders the time
`s*30` minutes after midnight as zero-padded `HH:MM`, except that the
end-of-day boundary slot 48 renders as "24:00" instead of wrapping. -/
theorem format_slot_time_clock (s : Nat) (hs : s ≤ 48) :
    format_slot_time s = if s = 48 then "24:00" else specSlotHHMM s := by
  revert s hs
  decide

/-- Witness for C7: slot 3 renders as "01:30". -/
theorem format_slot_time_clock_witness :
    (3 : Nat) ≤ 48 ∧
      format_slot_time 3 = if (3 : Nat) = 48 then "24:00" else specSlotHHMM 3 :=
  ⟨by decide, format_slot_time_clock 3 (by decide)⟩

/-- Invariant of the merge loop: from any state `start < i` the produced
periods are non-degenerate, abut and alternate, begin at `start` with status
`cur`, end at `i + rest.length`, and their durations telescope. -/
theorem mergeAux_spec (rest : List Bool) :
    ∀ (cur : Bool) (start i : Nat), start < i →
    ∃ p P, mergeAux rest cur start i = p :: P ∧
      p.startSlot = start ∧ p.is_on = cur ∧
      (∀ q ∈ p :: P, q.startSlot < q.endSlot) ∧
      List.Chain' PeriodRel (p :: P) ∧
      ((p :: P).map SlotPeriod.endSlot).getLast? = some (i + rest.length) ∧
      ((p :: P).map SlotPeriod.hours).sum =
        ((i + rest.length - start : ℕ) : ℚ) * (1 / 2) := by
  induction rest with
  | nil =>
    intro cur start i h
    refine ⟨⟨start, i, cur, ((i - start : ℕ) : ℚ) * (1 / 2)⟩, [], rfl, rfl,
      rfl, ?_, ?_, ?_, ?_⟩
    · intro q hq
      simp only [List.mem_singleton] at hq
      subst hq
      simpa using h
    · simp
    · simp
    · simp
  | cons b rest ih =>
    intro cur start i h
    by_cases hb : b = cur
    · subst hb
      obtain ⟨p, P, heq, h1, h2, h3, h4, h5, h6⟩ := ih b start (i + 1) (by omega)
      refine ⟨p, P, ?_, h1, h2, h3, h4, ?_, ?_⟩
      · simpa [mergeAux] using heq
      · rw [h5]
        simp only [List.length_cons, Option.some.injEq]
        omega
      · rw [h6]
        have e : i + 1 + rest.length - start = i + (b :: rest).length - start := by
          simp only [List.length_cons]
          omega
        rw [e]
    · obtain ⟨p, P, heq, h1, h2, h3, h4, h5, h6⟩ := ih b i (i + 1) (by omega)
      refine ⟨⟨start, i, cur, ((i - start : ℕ) : ℚ) * (1 / 2)⟩, p :: P, ?_,
        rfl, rfl, ?_, ?_, ?_, ?_⟩
      · simp only [mergeAux, if_neg hb, heq]
      · intro q hq
        rcases List.mem_cons.mp hq with hq | hq
        · subst hq
          simpa using h
        · exact h3 q hq
      · rw [List.chain'_cons]
        refine ⟨⟨h1.symm, ?_⟩, h4⟩
        show cur ≠ p.is_on
        rw [h2]
        exact fun hcb => hb hcb.symm
      · simp only [List.map_cons] at h5 ⊢
        rw [List.getLast?_cons_cons, h5]
        simp only [List.length_cons, Option.some.injEq]
        omega
      · simp only [List.map_cons, List.sum_cons] at h6 ⊢
        rw [h6]
        have e1 : i + 1 + rest.length - i = rest.length + 1 := by omega
        have e2 : i + (b :: rest).length - start = (i - start) + (rest.length + 1) := by
          simp only [List.length_cons]
          omega
        rw [e1, e2]
        push_cast
        ring

/-- The merge invariant holds for every 48-slot sequence. -/
theorem mergeSlots_spec48 (slots : List Bool) (h : slots.length = 48) :
    MergeInvariant slots := by
  cases slots with
  | nil => simp at h
  | cons b rest =>
    have hr : rest.length = 47 := by simpa using h
    obtain ⟨p, P, heq, h1, h2, h3, h4, h5, h6⟩ :=
      mergeAux_spec rest b 0 1 (by omega)
    have hms : mergeSlots (b :: rest) = p :: P := heq
    unfold MergeInvariant
    rw [hms]
    refine ⟨List.cons_ne_nil p P, h3, h4, ?_, ?_, ?_⟩
    · simp [h1]
    · rw [h5, hr]
    · rw [h6, hr]
      norm_num

/-- C2: for every 48-length boolean slot sequence, the merge phase of
`build_schedule` yields contiguous, non-overlapping intervals covering slots
[0,48) exactly once, no two adjacent intervals share the same powered value
(maximal merge), and the duration fields sum to exactly 24.0 hours. -/
theorem mergeSlots_partition (slots : List Bool) (h : slots.length = 48) :
    MergeInvariant slots :=
  mergeSlots_spec48 slots h

/-- Witness for C2: the all-on day. -/
theorem mergeSlots_partition_witness :
    (List.replicate 48 true).length = 48 ∧
      MergeInvariant (List.replicate 48 true) :=
  ⟨by decide, mergeSlots_partition (List.replicate 48 true) (by decide)⟩

/-- The encoder emits two slots per hour. -/
theorem encodeFrom_length (dd : DayData) (hs : List Nat) :
    (encodeFrom dd hs).length = 2 * hs.length := by
  induction hs with
  | nil => rfl
  | cons h t ih =>
    simp only [encodeFrom, List.length_cons, ih]
    omega

/-- The encoder always emits exactly 48 slots. -/
theorem encodeSlots_length (dd : DayData) : (encodeSlots dd).length = 48 := by
  simp [encodeSlots, encodeFrom_length]

/-- C9: for every input mapping, `build_schedule` returns a non-empty period
list whose first period starts at "00:00", whose last ends at "24:00", and
whose hours sum to exactly 24.0; the encoder always yields exactly 48 slots,
so the empty-slot degenerate branch of the merge phase is unreachable. -/
theorem build_schedule_total_cover (day_data : DayData) :
    (encodeSlots day_data).length = 48 ∧ encodeSlots day_data ≠ [] ∧
    build_schedule day_data ≠ [] ∧
    ((build_schedule day_data).map Period.start).head? = some "00:00" ∧
    ((build_schedule day_data).map Period.stop).getLast? = some "24:00" ∧
    ((build_schedule day_data).map Period.hours).sum = 24 := by
  have hlen := encodeSlots_length day_data
  obtain ⟨hne, hlt, hch, hhd, hlast, hsum⟩ := mergeSlots_spec48 _ hlen
  obtain ⟨p, P, heq⟩ : ∃ p P, mergeSlots (encodeSlots day_data) = p :: P := by
    cases hms : mergeSlots (encodeSlots day_data) with
    | nil => exact absurd hms hne
    | cons p P => exact ⟨p, P, rfl⟩
  have hstop : ((mergeSlots (encodeSlots day_data)).map renderPeriod).map
      Period.stop = ((mergeSlots (encodeSlots day_data)).map
        SlotPeriod.endSlot).map format_slot_time := by
    simp only [List.map_map]
    rfl
  have hhrs : ((mergeSlots (encodeSlots day_data)).map renderPeriod).map
      Period.hours = (mergeSlots (encodeSlots day_data)).map
        SlotPeriod.hours := by
    simp only [List.map_map]
    rfl
  refine ⟨hlen, ?_, ?_, ?_, ?_, ?_⟩
  · intro hnil
    rw [hnil] at hlen
    simp at hlen
  · intro hmap
    apply hne
    simpa [build_schedule] using hmap
  · rw [heq] at hhd
    simp only [List.map_cons, List.head?_cons, Option.some.injEq] at hhd
    rw [build_schedule, heq]
    simp only [List.map_cons, List.head?_cons, renderPeriod, hhd,
      Option.some.injEq]
    rfl
  · rw [build_schedule, hstop, List.getLast?_map, hlast]
    rfl
  · rw [build_schedule, hhrs, hsum]

/-- The merge phase on the C5 example day, with the duration terms still in
the raw form used by the loop. -/
theorem exDay_merge : mergeSlots (encodeSlots exDay) =
    [⟨0, 2, false, ((2 - 0 : ℕ) : ℚ) * (1 / 2)⟩,
     ⟨2, 48, true, ((48 - 2 : ℕ) : ℚ) * (1 / 2)⟩] := rfl

/-- Evaluating `build_schedule` on the C5 example day: hour "1" covers slots 0 and 1
only, so the off interval is 00:00-01:00 with 1.0 hours. -/
theorem exDay_schedule : build_schedule exDay =
    [⟨"00:00", "01:00", false, 1⟩, ⟨"01:00", "24:00", true, 23⟩] := by
  rw [build_schedule, exDay_merge]
  norm_num [renderPeriod, format_slot_time, pad2]
  decide

/-- The full rendered message for the C5 example day. -/
theorem exDay_message :
    format_schedule_message (build_schedule exDay) 6 "12.10" "GPV12.1" true
      = exDayMsg := by
  rw [exDay_schedule]
  have e1 : format_hours 1 = "1 година" := by decide
  have e23 : format_hours 23 = "23 години" := by decide
  simp only [format_schedule_message, List.filter_cons, List.filter_nil,
    List.map_cons, List.map_nil, List.sum_cons, List.sum_nil]
  norm_num [e1, e23]
  decide

/-- Counterexample to C5 as stated: on the input with hour "1" off and hour
"2" on, the first merged period ends at "01:00" (hour "1" is 00:00-01:00),
not at "02:00", so the claimed interval list is not produced. -/
theorem build_schedule_example_cex :
    ¬ (build_schedule exDay =
      [⟨"00:00", "02:00", false, 2⟩, ⟨"02:00", "24:00", true, 22⟩]) := by
  intro hcl
  have h2 := congrArg (fun l => l.map Period.stop) hcl
  dsimp only at h2
  exact absurd h2 (by decide)

/-- C5 amended: for the input with hour "1" off, hour "2" on and every other
hour on, `build_schedule` yields `[{00:00-01:00, off, 1.0},
{01:00-24:00, on, 23.0}]`, and the rendered summary lines read total on =
"23 години" and total off = "1 година". -/
theorem build_schedule_example_amended :
    build_schedule exDay =
      [⟨"00:00", "01:00", false, 1⟩, ⟨"01:00", "24:00", true, 23⟩] ∧
    format_schedule_message (build_schedule exDay) 6 "12.10" "GPV12.1" true
      = exDayMsg ∧
    (msgLines exDayMsg).drop 4 =
      ["Світло є 23 години", "Світла нема 1 година"] :=
  ⟨exDay_schedule, exDay_message, by decide⟩

/-- Counterexample to C1 as stated: for `cexDoc` the fingerprint differs
from the (absent) cached hash, yet the run performs zero delivery attempts —
the formatted message is empty because no configured group has day data —
and the marker stays unchanged even with an always-succeeding transport. -/
theorem mainRun_changed_no_delivery_cex :
    (none : Option String) ≠ some (cexDoc.contentHash.getD "") ∧
    mainRun fixedDate (some cexDoc) none (fun _ => true) = (0, none) := by
  constructor
  · decide
  · decide

/-- C1 amended: per run, equal fingerprints give zero delivery attempts and
an unchanged marker; differing fingerprints with a non-empty formatted
message give exactly one delivery sequence with the marker updated to the
new hash iff the delivery reports success (a failed delivery leaves the
marker untouched); differing fingerprints with a missing or empty formatted
message give zero delivery attempts and an unchanged marker. -/
theorem mainRun_revision_gate (tsToDate : Nat → Nat × String) (doc : FeedDoc)
    (marker0 : Option String) (sendOK : String → Bool) :
    (marker0 = some (doc.contentHash.getD "") →
      mainRun tsToDate (some doc) marker0 sendOK = (0, marker0)) ∧
    (marker0 ≠ some (doc.contentHash.getD "") →
      ∀ m, format_full_message tsToDate doc = some m → m ≠ "" →
        mainRun tsToDate (some doc) marker0 sendOK =
          (1, if sendOK m then some (doc.contentHash.getD "") else marker0)) ∧
    (marker0 ≠ some (doc.contentHash.getD "") →
      (format_full_message tsToDate doc = none ∨
        format_full_message tsToDate doc = some "") →
      mainRun tsToDate (some doc) marker0 sendOK = (0, marker0)) := by
  refine ⟨?_, ?_, ?_⟩
  · intro h
    simp [mainRun, h]
  · intro h m hm hne
    simp only [mainRun, h, hm, if_neg hne, if_false]
    split_ifs <;> simp
  · intro h hor
    rcases hor with hm | hm <;> simp [mainRun, h, hm]

/-- The full feed document around `exDay` formats to `exDayMsg`. -/
theorem exDoc_message : format_full_message fixedDate exDoc = some exDayMsg := by
  have hr : format_full_message fixedDate exDoc =
      some (String.intercalate "\n===\n" [String.intercalate "\n---\n"
        [format_schedule_message (build_schedule exDay) 6 "12.10" "GPV12.1"
          true]]) := rfl
  rw [hr, exDay_message]
  decide

/-- Witness for C1: a changed fingerprint with real day data and a
successful transport delivers once and commits the new hash. -/
theorem mainRun_revision_gate_witness :
    (none : Option String) ≠ some (exDoc.contentHash.getD "") ∧
    mainRun fixedDate (some exDoc) none (fun _ => true) = (1, some "h") := by
  refine ⟨by decide, ?_⟩
  have h := (mainRun_revision_gate fixedDate exDoc none (fun _ => true)).2.1
    (by decide) exDayMsg exDoc_message (by decide)
  simpa using h

/-- C10: a feed document with a non-empty `fact.data` in which neither
configured group has (non-falsy) day data within the two earliest
timestamps formats to the empty string, and `main` treats that as a
formatting failure: even though the fingerprint differs from the cached
one, zero delivery attempts are made and the marker file is unchanged. -/
theorem format_full_message_no_groups (tsToDate : Nat → Nat × String)
    (doc : FeedDoc) (hne : doc.factData ≠ [])
    (hg : ∀ ts ∈ (sorted_days doc.factData).take 2, ∀ g ∈ groups,
      dayGroupData doc ts g = []) :
    format_full_message tsToDate doc = some "" ∧
    ∀ marker0 sendOK, marker0 ≠ some (doc.contentHash.getD "") →
      mainRun tsToDate (some doc) marker0 sendOK = (0, marker0) := by
  have hmsg : format_full_message tsToDate doc = some "" := by
    unfold format_full_message
    rw [if_neg hne]
    dsimp only
    refine congrArg some ?_
    have key : ∀ F : String → Option String, (∀ g ∈ groups, F g = none) →
        "\n===\n".intercalate (List.filterMap F groups) = "" := by
      intro F hF
      rw [List.filterMap_eq_nil_iff.mpr hF]
      rfl
    apply key
    intro g hgmem
    dsimp only
    have key2 : ∀ G : Nat × String → Option String,
        (∀ p ∈ (List.take 2 (sorted_days doc.factData)).enum, G p = none) →
        (if List.filterMap G (List.take 2 (sorted_days doc.factData)).enum = []
         then none
         else some ("\n---\n".intercalate
           (List.filterMap G (List.take 2 (sorted_days doc.factData)).enum)))
          = (none : Option String) := by
      intro G hG
      rw [List.filterMap_eq_nil_iff.mpr hG]
      simp
    apply key2
    intro p hp
    dsimp only
    have hts : p.2 ∈ List.take 2 (sorted_days doc.factData) := by
      have h2 := List.mem_map_of_mem Prod.snd hp
      rwa [List.enum_map_snd] at h2
    have hd := hg p.2 hts g hgmem
    simp only [dayGroupData] at hd
    rw [hd]
    simp
  refine ⟨hmsg, ?_⟩
  intro marker0 sendOK h
  simp [mainRun, h, hmsg]

/-- Witness for C10: the document with a day but no group data. -/
theorem format_full_message_no_groups_witness :
    cexDoc.factData ≠ [] ∧ format_full_message fixedDate cexDoc = some "" ∧
    mainRun fixedDate (some cexDoc) none (fun _ => false) = (0, none) := by
  have h := format_full_message_no_groups fixedDate cexDoc (by decide) (by decide)
  exact ⟨by decide, h.1, h.2 none (fun _ => false) (by decide)⟩

/-- Scanning a region with no separator occurrence closes a single part. -/
theorem pySplitAcc_no_match (sep : List Char) :
    ∀ s acc : List Char, (∀ i, sep.isPrefixOf (s.drop i) = false) →
      pySplitAcc sep acc s = [acc.reverse ++ s] := by
  intro s
  induction s with
  | nil =>
    intro acc h
    simp [pySplitAcc]
  | cons c rest ih =>
    intro acc h
    have h0 : sep.isPrefixOf (c :: rest) = false := by simpa using h 0
    rw [pySplitAcc, if_neg (fun hc => by simp [h0] at hc)]
    rw [ih (c :: acc) (fun i => by simpa using h (i + 1))]
    simp

/-- Scanning `A ++ sep ++ B` with no occurrence before the designated one
and none inside `B` yields exactly the two parts. -/
theorem pySplitAcc_boundary (sep B : List Char) (hsep : sep ≠ [])
    (hB : ∀ i, sep.isPrefixOf (B.drop i) = false) :
    ∀ A acc : List Char,
      (∀ i < A.length, sep.isPrefixOf ((A ++ (sep ++ B)).drop i) = false) →
      pySplitAcc sep acc (A ++ (sep ++ B)) = [acc.reverse ++ A, B] := by
  intro A
  induction A with
  | nil =>
    intro acc hocc
    obtain ⟨c, s', rfl⟩ : ∃ c s', sep = c :: s' := by
      cases sep with
      | nil => exact absurd rfl hsep
      | cons c s' => exact ⟨c, s', rfl⟩
    simp only [List.nil_append, List.cons_append]
    rw [pySplitAcc, if_pos ?_]
    · have hdrop : (s' ++ B).drop ((c :: s').length - 1) = B := by
        simp [List.drop_left]
      rw [hdrop, pySplitAcc_no_match (c :: s') B [] hB]
      simp
    · refine ⟨hsep, ?_⟩
      rw [← List.cons_append]
      exact List.isPrefixOf_iff_prefix.mpr (List.prefix_append _ _)
  | cons a A' ih =>
    intro acc hocc
    have h0 : sep.isPrefixOf (a :: (A' ++ (sep ++ B))) = false := by
      have hx := hocc 0 (by simp)
      simpa using hx
    rw [List.cons_append, pySplitAcc, if_neg (fun hc => by simp [h0] at hc)]
    rw [ih (a :: acc) ?_]
    · simp
    · intro i hi
      have hx := hocc (i + 1) (by simp only [List.length_cons]; omega)
      simpa using hx

/-- C6: a message within the 4000-character transport limit is delivered as
one payload; a longer two-group report — `A ++ "\n===\n" ++ B` with the
marker occurring only at the designated boundary — splits into exactly the
two payloads `A` and `B`, each starting at a group boundary and neither
containing the group-separator marker. -/
theorem chunkMessage_two_groups (A B : List Char)
    (hA : ∀ i < A.length,
      sepChars.isPrefixOf ((A ++ (sepChars ++ B)).drop i) = false)
    (hB : ∀ i, sepChars.isPrefixOf (B.drop i) = false)
    (hlen : 4000 < (A ++ (sepChars ++ B)).length) :
    chunkMessage (A ++ (sepChars ++ B)) = [A, B] ∧
    ¬ sepChars <:+: A ∧ ¬ sepChars <:+: B ∧
    ∀ m : List Char, m.length ≤ 4000 → chunkMessage m = [m] := by
  refine ⟨?_, ?_, ?_, ?_⟩
  · rw [chunkMessage, if_neg (by omega)]
    rw [pySplit, pySplitAcc_boundary sepChars B (by decide) hB A [] hA]
    simp
  · intro hinf
    obtain ⟨s, t, hst⟩ := hinf
    subst hst
    have hi : s.length < (s ++ sepChars ++ t).length := by
      simp [sepChars]
    have hx := hA s.length hi
    rw [show ((s ++ sepChars ++ t) ++ (sepChars ++ B)).drop s.length =
        sepChars ++ (t ++ (sepChars ++ B)) from by
      simp only [List.append_assoc]
      exact List.drop_left s _] at hx
    rw [ List.isPrefixOf_iff_prefix.mpr (List.prefix_append _ _)] at hx
    simp at hx
  · intro hinf
    obtain ⟨s, t, hst⟩ := hinf
    subst hst
    have hx := hB s.length
    rw [show (s ++ sepChars ++ t).drop s.length = sepChars ++ t from by
      simp only [List.append_assoc]
      exact List.drop_left s _] at hx
    rw [ List.isPrefixOf_iff_prefix.mpr (List.prefix_append _ _)] at hx
    simp at hx
  · intro m hm
    rw [chunkMessage, if_pos hm]

/-- No separator can start inside a newline-free region. -/
theorem noNl_prefix_false (A X : List Char) (hA : ∀ c ∈ A, c ≠ '\n') :
    ∀ i < A.length, sepChars.isPrefixOf ((A ++ X).drop i) = false := by
  intro i hi
  cases hpre : sepChars.isPrefixOf ((A ++ X).drop i) with
  | false => rfl
  | true =>
    exfalso
    rw [ List.isPrefixOf_iff_prefix] at hpre
    have hdrop : (A ++ X).drop i = A[i] :: (A.drop (i + 1) ++ X) := by
      rw [List.drop_append_of_le_length (le_of_lt hi),
        List.drop_eq_getElem_cons hi, List.cons_append]
    rw [hdrop] at hpre
    obtain ⟨t, ht⟩ := hpre
    have hhd : '\n' = A[i] := by
      have hq := congrArg List.head? ht
      simpa [sepChars] using hq
    exact hA A[i] (List.getElem_mem hi) hhd.symm

/-- A newline-free list contains no separator occurrence at all. -/
theorem noNl_no_occurrence (B : List Char) (hB : ∀ c ∈ B, c ≠ '\n') :
    ∀ i, sepChars.isPrefixOf (B.drop i) = false := by
  intro i
  by_cases hi : i < B.length
  · have hx := noNl_prefix_false B [] hB i hi
    simpa using hx
  · rw [List.drop_eq_nil_of_le (by omega)]
    rfl

/-- Witness for C6: a 4000-character group A and a 10-character group B
joined by the marker exceed the limit and split into the two groups. -/
theorem chunkMessage_two_groups_witness :
    4000 < (chunkA ++ (sepChars ++ chunkB)).length ∧
    chunkMessage (chunkA ++ (sepChars ++ chunkB)) = [chunkA, chunkB] := by
  have hAc : ∀ c ∈ chunkA, c ≠ '\n' := by
    intro c hc
    rw [List.eq_of_mem_replicate hc]
    decide
  have hBc : ∀ c ∈ chunkB, c ≠ '\n' := by
    intro c hc
    rw [List.eq_of_mem_replicate hc]
    decide
  have h := chunkMessage_two_groups chunkA chunkB
    (noNl_prefix_false chunkA (sepChars ++ chunkB) hAc)
    (noNl_no_occurrence chunkB hBc)
    (by norm_num [chunkA, chunkB, sepChars])
  exact ⟨by norm_num [chunkA, chunkB, sepChars], h.1⟩

/-- C8 is violated by the code: when `requests.post` raises on the first
payload, the `except` handler evaluates the unbound local `response` in its
`hasattr` guard, and the resulting `UnboundLocalError` escapes
`send_telegram_message` — so a transport error can raise beyond the run
boundary. `fetch_data`, by contrast, does catch every transport failure. -/
theorem send_telegram_message_unbound_response :
    send_telegram_message (some "token") (some "chan")
        (fun _ => .postRaise "ConnectionError") ("hi".data)
      = .error "UnboundLocalError" ∧
    (∀ e : String, fetch_data (.error e) = none) :=
  ⟨rfl, fun _ => rfl⟩

end LightMonitor
